import Mathlib

/-!
Verification of benji/backy2 `utils.py` (token bucket rate limiter, bounded
completion driver, hash helpers).

Numbers: Python's `time()` values and the float accumulator `tokens` are
modelled as exact rationals (ℚ).  The nondeterministic clock `time()` is an
explicit `now` argument on every call that reads it.
-/

/-! ### TokenBucket (src/benji/utils.py lines 124-158, src/backy2/utils.py lines 91-128)

State of one bucket: `tokens`, `rate`, `last` (the `lock` field serialises the
methods; each method body is one atomic step here, so the lock itself has no
model). -/

structure TokenBucket where
  tokens : ℚ
  rate : ℚ
  last : ℚ
deriving Repr, DecidableEq

/-- `__init__`: `tokens = 0.0`, `rate = 0`, `last = time()` (the construction
time is the argument `now`). -/
def TokenBucket.init (now : ℚ) : TokenBucket :=
  { tokens := 0, rate := 0, last := now }

/-- `set_rate`: `self.rate = rate; self.tokens = self.rate`. -/
def TokenBucket.set_rate (self : TokenBucket) (rate : ℚ) : TokenBucket :=
  { self with rate := rate, tokens := rate }

/-- `consume`: returns the recommended wait and the updated bucket.
`if not self.rate: return 0` is the `self.rate = 0` test (rate is numeric, so
Python truthiness is comparison with zero), and on that path nothing is
mutated. -/
def TokenBucket.consume (self : TokenBucket) (now : ℚ) (tokens : ℚ) : ℚ × TokenBucket :=
  if self.rate = 0 then
    (0, self)
  else
    let lapse := now - self.last
    let t1 := self.tokens + lapse * self.rate
    let t2 := if t1 > self.rate then self.rate else t1
    let t3 := t2 - tokens
    let self' : TokenBucket := { tokens := t3, rate := self.rate, last := now }
    if 0 ≤ t3 then (0, self') else (-t3 / self.rate, self')

/-! ### Operation sequences on a bucket (for the invariant and the
same-instant consume claims) -/

/-- One externally visible bucket operation: `set_rate rate`, or
`consume amount` issued when the clock reads `now`. -/
inductive BucketOp where
  | setRateOp : ℚ → BucketOp
  | consumeOp : ℚ → ℚ → BucketOp
deriving Repr, DecidableEq

def applyOp (st : TokenBucket) : BucketOp → TokenBucket
  | .setRateOp r => st.set_rate r
  | .consumeOp now a => (st.consume now a).2

/-- The side conditions the invariant claim places on calls: non-negative
rates and non-negative consume amounts. -/
def validOp : BucketOp → Prop
  | .setRateOp r => 0 ≤ r
  | .consumeOp _ a => 0 ≤ a

def runOps (t0 : ℚ) (ops : List BucketOp) : TokenBucket :=
  ops.foldl applyOp (TokenBucket.init t0)

/-- A burst of `consume` calls, all issued at clock value `now`; returns the
final bucket and the list of returned waits, in call order. -/
def consumeSeq (st : TokenBucket) (now : ℚ) : List ℚ → TokenBucket × List ℚ
  | [] => (st, [])
  | a :: rest =>
    let r1 := st.consume now a
    let r2 := consumeSeq r1.2 now rest
    (r2.1, r1.1 :: r2.2)

/-! ### Theorems: token bucket -/

/-- Claim C5: for every rate value, immediately after `set_rate rate` the
bucket's `rate` field equals `rate` and its `tokens` field equals `rate`,
regardless of the prior state. -/
theorem set_rate_sets_rate_and_fills (st : TokenBucket) (r : ℚ) :
    (st.set_rate r).rate = r ∧ (st.set_rate r).tokens = r :=
  ⟨rfl, rfl⟩

/-- Claim C6: `consume` on a bucket whose rate is 0 returns 0 and leaves the
whole state (tokens and last refill time) unchanged, for every amount and
every clock value. -/
theorem consume_zero_rate_noop (st : TokenBucket) (now a : ℚ) (h : st.rate = 0) :
    st.consume now a = (0, st) := by
  simp [TokenBucket.consume, h]

/-- Witness for `consume_zero_rate_noop`: a freshly constructed bucket has
rate 0, and consuming 100 units after 5 time units returns 0 and changes
nothing. -/
theorem consume_zero_rate_noop_witness :
    (TokenBucket.init 0).rate = 0 ∧
      (TokenBucket.init 0).consume 5 100 = (0, TokenBucket.init 0) :=
  ⟨rfl, consume_zero_rate_noop (TokenBucket.init 0) 5 100 rfl⟩

/-- The clamp `if self.tokens > self.rate: self.tokens = self.rate` computes
the minimum of the replenished token count and the rate. -/
theorem ite_gt_eq_min (x y : ℚ) : (if x > y then y else x) = min x y := by
  rcases le_or_lt x y with hle | hlt
  · rw [if_neg (not_lt.mpr hle), min_eq_left hle]
  · rw [if_pos hlt, min_eq_right hlt.le]

/-- Closed form of `consume` when the rate is nonzero. -/
theorem consume_pos_rate (st : TokenBucket) (now a : ℚ) (h : st.rate ≠ 0) :
    st.consume now a =
      (if 0 ≤ min (st.tokens + (now - st.last) * st.rate) st.rate - a then 0
       else -(min (st.tokens + (now - st.last) * st.rate) st.rate - a) / st.rate,
       { tokens := min (st.tokens + (now - st.last) * st.rate) st.rate - a,
         rate := st.rate, last := now }) := by
  simp only [TokenBucket.consume, if_neg h, ite_gt_eq_min]
  split <;> rfl

/-- Claim C1: for every `consume amount` call with `rate > 0`, the operation
sets `last` to `now`, adds `elapsed * rate` to the tokens, clamps them to at
most `rate` (upper bound only), subtracts the amount, and returns 0 when the
resulting tokens are non-negative and `-tokens / rate` otherwise; moreover on
a freshly rated bucket with no time elapsed, `consume rate` returns 0 and an
immediately following `consume (rate + 1)` returns a positive wait. -/
theorem consume_positive_rate_spec (st : TokenBucket) (now a t0 r : ℚ)
    (h : 0 < st.rate) (hr : 0 < r) :
    ((st.consume now a).2.last = now ∧
     (st.consume now a).2.rate = st.rate ∧
     (st.consume now a).2.tokens
        = min (st.tokens + (now - st.last) * st.rate) st.rate - a ∧
     (st.consume now a).1
        = if 0 ≤ (st.consume now a).2.tokens then 0
          else -(st.consume now a).2.tokens / st.rate) ∧
    ((((TokenBucket.init t0).set_rate r).consume t0 r).1 = 0 ∧
     0 < ((((TokenBucket.init t0).set_rate r).consume t0 r).2.consume t0 (r + 1)).1) := by
  have hfresh : ((TokenBucket.init t0).set_rate r).consume t0 r
      = (0, { tokens := 0, rate := r, last := t0 }) := by
    rw [consume_pos_rate _ _ _ (show ((TokenBucket.init t0).set_rate r).rate ≠ 0 from hr.ne')]
    simp [TokenBucket.init, TokenBucket.set_rate]
  constructor
  · rw [consume_pos_rate st now a h.ne']
    exact ⟨rfl, rfl, rfl, rfl⟩
  · refine ⟨by rw [hfresh], ?_⟩
    rw [hfresh]
    rw [consume_pos_rate _ _ _ (show ({ tokens := 0, rate := r, last := t0 } : TokenBucket).rate ≠ 0 from hr.ne')]
    dsimp only
    rw [if_neg]
    · have hmin : min ((0:ℚ) + (t0 - t0) * r) r = 0 := by
        simp [min_eq_left hr.le]
      rw [hmin]
      have : (0:ℚ) < r + 1 := by linarith
      rw [zero_sub, neg_neg]
      positivity
    · have hmin : min ((0:ℚ) + (t0 - t0) * r) r = 0 := by
        simp [min_eq_left hr.le]
      rw [hmin]
      intro hcon
      linarith

/-- Witness for `consume_positive_rate_spec`: a bucket with rate 2, one token
and three time units elapsed, consuming 4: replenish to 7, clamp to 2, debit
to -2, wait 1; and the fresh round trip at rate 2. -/
theorem consume_positive_rate_spec_witness :
    (0:ℚ) < ({ tokens := 1, rate := 2, last := 0 } : TokenBucket).rate ∧
    ({ tokens := 1, rate := 2, last := 0 } : TokenBucket).consume 3 4
      = (1, { tokens := -2, rate := 2, last := 3 }) ∧
    (((TokenBucket.init 0).set_rate 2).consume 0 2).1 = 0 ∧
    0 < ((((TokenBucket.init 0).set_rate 2).consume 0 2).2.consume 0 (2 + 1)).1 := by
  have H := consume_positive_rate_spec { tokens := 1, rate := 2, last := 0 } 3 4 0 2
    (by norm_num) (by norm_num)
  refine ⟨by norm_num, ?_, H.2.1, H.2.2⟩
  rw [consume_pos_rate _ _ _ (by norm_num)]
  norm_num [Prod.ext_iff]

/-- Claim C9: for every bucket state with non-negative rate (tokens may be in
arbitrary debt) and every amount, the wait returned by `consume` is
non-negative. -/
theorem consume_wait_nonneg (st : TokenBucket) (now a : ℚ) (h : 0 ≤ st.rate) :
    0 ≤ (st.consume now a).1 := by
  rcases eq_or_lt_of_le h with hz | hp
  · simp [TokenBucket.consume, ← hz]
  · rw [consume_pos_rate st now a hp.ne']
    dsimp only
    split
    · exact le_refl 0
    next hneg =>
      exact div_nonneg (by linarith [not_le.mp hneg]) h

/-- Witness for `consume_wait_nonneg`: a bucket already five tokens in debt
still returns a non-negative wait. -/
theorem consume_wait_nonneg_witness :
    (0:ℚ) ≤ ({ tokens := -5, rate := 2, last := 0 } : TokenBucket).rate ∧
    0 ≤ (({ tokens := -5, rate := 2, last := 0 } : TokenBucket).consume 0 1).1 :=
  ⟨by norm_num, consume_wait_nonneg { tokens := -5, rate := 2, last := 0 } 0 1 (by norm_num)⟩

/-- Each single operation with a non-negative argument keeps `tokens ≤ rate`. -/
theorem applyOp_preserves (st : TokenBucket) (op : BucketOp) (hv : validOp op)
    (hinv : st.tokens ≤ st.rate) :
    (applyOp st op).tokens ≤ (applyOp st op).rate := by
  cases op with
  | setRateOp r => exact le_refl r
  | consumeOp now a =>
    rcases eq_or_ne st.rate 0 with hz | hnz
    · simpa [applyOp, TokenBucket.consume, hz] using hinv
    · rw [show applyOp st (.consumeOp now a) = (st.consume now a).2 from rfl,
        consume_pos_rate st now a hnz]
      have hmin : min (st.tokens + (now - st.last) * st.rate) st.rate ≤ st.rate :=
        min_le_right _ _
      have ha : 0 ≤ a := hv
      dsimp only
      linarith

/-- Claim C4: for every interleaving of `set_rate` and `consume` calls with
non-negative rates and non-negative amounts, `tokens ≤ rate` holds after each
operation (here: after the whole run, for every run, which covers every
prefix); the clamp is only an upper bound, so `tokens` may be negative. -/
theorem bucket_tokens_le_rate_invariant (t0 : ℚ) (ops : List BucketOp)
    (hv : ∀ op ∈ ops, validOp op) :
    (runOps t0 ops).tokens ≤ (runOps t0 ops).rate := by
  have gen : ∀ (l : List BucketOp) (st : TokenBucket), (∀ op ∈ l, validOp op) →
      st.tokens ≤ st.rate →
      (l.foldl applyOp st).tokens ≤ (l.foldl applyOp st).rate := by
    intro l
    induction l with
    | nil => intro st _ h; exact h
    | cons op rest ih =>
      intro st hval hinv
      rw [List.foldl_cons]
      exact ih (applyOp st op) (fun o ho => hval o (List.mem_cons_of_mem _ ho))
        (applyOp_preserves st op (hval op (List.mem_cons_self _ _)) hinv)
  exact gen ops (TokenBucket.init t0) hv (le_refl 0)

/-- Witness for `bucket_tokens_le_rate_invariant`: set rate 2, then consume 5
at time 1 — the bucket ends at tokens −3 ≤ rate 2. -/
theorem bucket_tokens_le_rate_invariant_witness :
    (∀ op ∈ [BucketOp.setRateOp 2, BucketOp.consumeOp 1 5], validOp op) ∧
    (runOps 0 [BucketOp.setRateOp 2, BucketOp.consumeOp 1 5]).tokens
      ≤ (runOps 0 [BucketOp.setRateOp 2, BucketOp.consumeOp 1 5]).rate := by
  have hv : ∀ op ∈ [BucketOp.setRateOp 2, BucketOp.consumeOp 1 5], validOp op := by
    intro op hop
    rcases List.mem_cons.mp hop with rfl | hop2
    · exact (by norm_num : (0:ℚ) ≤ 2)
    · rcases List.mem_cons.mp hop2 with rfl | hop3
      · exact (by norm_num : (0:ℚ) ≤ 5)
      · exact absurd hop3 (List.not_mem_nil op)
  exact ⟨hv, bucket_tokens_le_rate_invariant 0 _ hv⟩

/-- Claim C7, counterexample: at rate 1 with same-instant amounts `[2, 1]`,
the waits returned are 1 and 2, whose sum 3 differs from the claimed
cumulative value `max 0 (-(1 - 3)) / 1 = 2` (once in debt, every later call
reports the whole accumulated debt again, so the per-call waits overlap). -/
theorem cumulative_wait_counterexample :
    ¬ ((consumeSeq ((TokenBucket.init 0).set_rate 1) 0 [2, 1]).2.sum
        = max 0 (-(1 - ([2, 1] : List ℚ).sum)) / 1) := by
  norm_num [consumeSeq, TokenBucket.consume, TokenBucket.init, TokenBucket.set_rate]

/-- Same-instant consume bursts, generalised: starting from a bucket whose
tokens are `rate - s` (a deficit `s ≥ 0`) and whose clock has not advanced,
tokens stay purely additive and the last returned wait reports the whole
accumulated overdraft. -/
theorem consumeSeq_same_instant (amounts : List ℚ) :
    ∀ (rate s now : ℚ), 0 < rate → 0 ≤ s → (∀ a ∈ amounts, 0 ≤ a) →
    ∀ st : TokenBucket, st.rate = rate → st.last = now → st.tokens = rate - s →
      (consumeSeq st now amounts).1.tokens = rate - (s + amounts.sum) ∧
      (consumeSeq st now amounts).1.rate = rate ∧
      (consumeSeq st now amounts).1.last = now ∧
      (amounts ≠ [] →
        (consumeSeq st now amounts).2.getLast?
          = some (max 0 ((s + amounts.sum) - rate) / rate)) := by
  induction amounts with
  | nil =>
    intro rate s now _ _ _ st h1 h2 h3
    exact ⟨by simp [consumeSeq, h3], by simp [consumeSeq, h1],
      by simp [consumeSeq, h2], fun h => absurd rfl h⟩
  | cons a rest ih =>
    intro rate s now hr hs ha st h1 h2 h3
    have ha0 : 0 ≤ a := ha a (List.mem_cons_self _ _)
    have hw : (if 0 ≤ rate - (s + a) then (0:ℚ) else -(rate - (s + a)) / rate)
        = max 0 ((s + a) - rate) / rate := by
      rcases le_or_lt (s + a) rate with hle | hlt
      · rw [if_pos (by linarith), max_eq_left (by linarith), zero_div]
      · rw [if_neg (by intro hcon; linarith), max_eq_right (by linarith)]
        congr 1
        ring
    have hstep : st.consume now a
        = (max 0 ((s + a) - rate) / rate,
           { tokens := rate - (s + a), rate := rate, last := now }) := by
      rw [consume_pos_rate st now a (by rw [h1]; exact hr.ne')]
      rw [h1, h2, h3]
      have hmin : min ((rate - s) + (now - now) * rate) rate = rate - s := by
        rw [sub_self, zero_mul, add_zero]
        exact min_eq_left (by linarith)
      rw [hmin, show rate - s - a = rate - (s + a) from by ring, hw]
    have IH := ih rate (s + a) now hr (by linarith)
      (fun x hx => ha x (List.mem_cons_of_mem _ hx))
      { tokens := rate - (s + a), rate := rate, last := now } rfl rfl rfl
    have hunfold : consumeSeq st now (a :: rest)
        = ((consumeSeq { tokens := rate - (s + a), rate := rate, last := now } now rest).1,
           max 0 ((s + a) - rate) / rate
             :: (consumeSeq { tokens := rate - (s + a), rate := rate, last := now } now rest).2) := by
      rw [consumeSeq, hstep]
    rw [hunfold]
    have hsum : s + (a :: rest).sum = (s + a) + rest.sum := by
      rw [List.sum_cons]; ring
    refine ⟨by rw [IH.1, hsum], IH.2.1, IH.2.2.1, fun _ => ?_⟩
    dsimp only
    cases rest with
    | nil =>
      simp only [consumeSeq, List.getLast?_singleton]
      rw [hsum]
      norm_num
    | cons b l =>
      have hshape : (consumeSeq { tokens := rate - (s + a), rate := rate, last := now } now
            (b :: l)).2
          = (({ tokens := rate - (s + a), rate := rate, last := now } : TokenBucket).consume
              now b).1
            :: (consumeSeq (({ tokens := rate - (s + a), rate := rate, last := now } : TokenBucket).consume now b).2 now l).2 := rfl
      rw [hshape, List.getLast?_cons_cons, ← hshape, IH.2.2.2 (by simp), hsum]

/-- Claim C7 (amended): for a fixed `rate > 0` and a non-empty sequence of
same-instant `consume` calls with non-negative amounts on a freshly rated
bucket, the wait returned by the final call (not the sum of all returned
waits) equals `max 0 (-(rate - sum amounts)) / rate`. -/
theorem final_wait_formula (rate t0 : ℚ) (amounts : List ℚ) (hr : 0 < rate)
    (hne : amounts ≠ []) (ha : ∀ a ∈ amounts, 0 ≤ a) :
    (consumeSeq ((TokenBucket.init t0).set_rate rate) t0 amounts).2.getLast?
      = some (max 0 (-(rate - amounts.sum)) / rate) := by
  have H := consumeSeq_same_instant amounts rate 0 t0 hr (le_refl 0) ha
    ((TokenBucket.init t0).set_rate rate) rfl rfl
    (by simp [TokenBucket.init, TokenBucket.set_rate])
  rw [H.2.2.2 hne]
  have : (0 + amounts.sum) - rate = -(rate - amounts.sum) := by ring
  rw [this]

/-- Witness for `final_wait_formula`: rate 1, single call consuming 2 — the
final (only) wait is `max 0 (-(1 - 2)) / 1 = 1`. -/
theorem final_wait_formula_witness :
    (0:ℚ) < 1 ∧ ([2] : List ℚ) ≠ [] ∧ (∀ a ∈ ([2] : List ℚ), (0:ℚ) ≤ a) ∧
    (consumeSeq ((TokenBucket.init 0).set_rate 1) 0 [2]).2.getLast?
      = some (max 0 (-(1 - ([2] : List ℚ).sum)) / 1) := by
  have ha : ∀ a ∈ ([2] : List ℚ), (0:ℚ) ≤ a := by
    intro a haa
    rw [List.mem_singleton] at haa
    rw [haa]; norm_num
  exact ⟨by norm_num, by simp, ha, final_wait_formula 1 0 [2] (by norm_num) (by simp) ha⟩

/-! ### future_results_as_completed (src/benji/utils.py lines 77-90)

The generator iterates `concurrent.futures.as_completed(futures)`; the
completion order the scheduler produces is the input list here.  Each handle
is removed from the active set as it is processed (the recursion consumes the
list), so the claims below are about what the loop body does per handle. -/

/-- One future as observed at completion: whether it was cancelled before
completing, and — when it ran — the outcome of its underlying operation (a
fault the task raised is `Except.error`). -/
structure TaskHandle (ε α : Type) where
  cancelled : Bool
  run : Except ε α

/-- What `future.result()` delivers: on a cancelled future it raises
`CancelledError`; otherwise it re-raises the task's own fault or returns its
value.  In the Python versions this code targets (it only warns below 3.6.4),
`concurrent.futures.CancelledError` subclasses `Exception`, so every error
constructed here is caught by the loop body's `except Exception`. -/
inductive TaskFault (ε : Type) where
  | raised : ε → TaskFault ε
  | cancelledError : TaskFault ε

def futureResult {ε α : Type} (future : TaskHandle ε α) : Except (TaskFault ε) α :=
  if future.cancelled then Except.error TaskFault.cancelledError
  else
    match future.run with
    | Except.ok v => Except.ok v
    | Except.error e => Except.error (TaskFault.raised e)

/-- The value bound to `result` and yielded: the produced value, or the
captured exception delivered as data. -/
inductive CompletionResult (ε α : Type) where
  | success : α → CompletionResult ε α
  | failure : TaskFault ε → CompletionResult ε α

/-- The loop body's `try: result = future.result() except Exception as
exception: result = exception`. -/
def handleResult {ε α : Type} (future : TaskHandle ε α) : CompletionResult ε α :=
  match futureResult future with
  | Except.ok v => CompletionResult.success v
  | Except.error e => CompletionResult.failure e

/-- The whole iteration: for each completed future, release one permit when a
semaphore was supplied and the future was not cancelled
(`if semaphore and not future.cancelled(): semaphore.release()`), capture the
outcome, and yield it.  Returns the final permit count and the yielded
results in order. -/
def future_results_as_completed {ε α : Type} :
    List (TaskHandle ε α) → Option Nat → Option Nat × List (CompletionResult ε α)
  | [], semaphore => (semaphore, [])
  | future :: rest, semaphore =>
    let semaphore' := match semaphore with
      | some n => if future.cancelled then some n else some (n + 1)
      | none => none
    let result := handleResult future
    let next := future_results_as_completed rest semaphore'
    (next.1, result :: next.2)

/-- The yielded results do not depend on the semaphore: every completed
future yields exactly one result, in completion order. -/
theorem drain_results_eq_map {ε α : Type} (l : List (TaskHandle ε α)) (sem : Option Nat) :
    (future_results_as_completed l sem).2 = l.map handleResult := by
  induction l generalizing sem with
  | nil => rfl
  | cons f rest ih =>
    simp only [future_results_as_completed, List.map_cons]
    rw [ih]

/-- Claim C2: a task that raises a fault has the fault captured and yielded
as a `failure` result in its completion slot — the exception does not unwind
the iteration — and every subsequently completing task still yields its
result normally. -/
theorem drain_captures_task_fault {ε α : Type} (pre post : List (TaskHandle ε α))
    (h : TaskHandle ε α) (semaphore : Option Nat) (e : ε)
    (hnc : h.cancelled = false) (he : h.run = Except.error e) :
    (future_results_as_completed (pre ++ h :: post) semaphore).2
      = pre.map handleResult
        ++ CompletionResult.failure (TaskFault.raised e) :: post.map handleResult := by
  have hh : handleResult h = CompletionResult.failure (TaskFault.raised e) := by
    simp [handleResult, futureResult, hnc, he]
  rw [drain_results_eq_map, List.map_append, List.map_cons, hh]

/-- Witness for `drain_captures_task_fault`: a task raising `"boom"` followed
by one returning 7 yields a failure then a success. -/
theorem drain_captures_task_fault_witness :
    ({ cancelled := false, run := Except.error "boom" } : TaskHandle String Nat).cancelled
        = false ∧
    (future_results_as_completed
        [({ cancelled := false, run := Except.error "boom" } : TaskHandle String Nat),
         { cancelled := false, run := Except.ok 7 }] (some 0)).2
      = [CompletionResult.failure (TaskFault.raised "boom"), CompletionResult.success 7] := by
  have H := drain_captures_task_fault ([] : List (TaskHandle String Nat))
    [{ cancelled := false, run := Except.ok 7 }]
    { cancelled := false, run := Except.error "boom" } (some 0) "boom" rfl rfl
  exact ⟨rfl, by simpa [handleResult, futureResult] using H⟩

/-- Claim C3, counterexample: a handle cancelled before completion does have
a result delivered for it — `future.result()` raises `CancelledError`, the
`except Exception` captures it, and the loop yields it — so "no result is
delivered to the consumer for that handle" is false (the permit half of the
claim is true: the count stays at 3). -/
theorem drain_cancelled_still_yields_result :
    (future_results_as_completed
        [({ cancelled := true, run := Except.ok 0 } : TaskHandle Unit Nat)] (some 3))
      = (some 3, [CompletionResult.failure TaskFault.cancelledError]) ∧
    (future_results_as_completed
        [({ cancelled := true, run := Except.ok 0 } : TaskHandle Unit Nat)] (some 3)).2
      ≠ [] := by
  exact ⟨rfl, List.cons_ne_nil _ _⟩

/-- Claim C3 (amended): for every completion order and starting permit count,
exactly one permit is released per non-cancelled handle (none for cancelled
ones), and every handle — cancelled or not — has exactly one result yielded
for it, a cancelled handle's being the captured `CancelledError` as a
failure. -/
theorem drain_permit_and_result_accounting {ε α : Type}
    (order : List (TaskHandle ε α)) (n : Nat) :
    (future_results_as_completed order (some n)).1
      = some (n + order.countP (fun h => !h.cancelled))
    ∧ (future_results_as_completed order (some n)).2 = order.map handleResult
    ∧ ∀ h ∈ order, h.cancelled = true →
        handleResult h = CompletionResult.failure TaskFault.cancelledError := by
  refine ⟨?_, drain_results_eq_map order (some n), ?_⟩
  · induction order generalizing n with
    | nil => simp [future_results_as_completed]
    | cons f rest ih =>
      simp only [future_results_as_completed]
      by_cases hc : f.cancelled = true
      · rw [if_pos hc, ih]
        have hcount : List.countP (fun h => !h.cancelled) (f :: rest)
            = List.countP (fun h => !h.cancelled) rest := by
          simp [List.countP_cons, hc]
        rw [hcount]
      · rw [if_neg hc, ih]
        have hcount : List.countP (fun h => !h.cancelled) (f :: rest)
            = List.countP (fun h => !h.cancelled) rest + 1 := by
          simp only [Bool.not_eq_true] at hc
          simp [List.countP_cons, hc]
        rw [hcount]
        congr 1
        omega
  · intro h _ hcanc
    simp [handleResult, futureResult, hcanc]

/-- Witness for `drain_permit_and_result_accounting`: a cancelled handle then
a successful one, starting from 0 permits: one permit released, two results
yielded, the first the captured cancellation. -/
theorem drain_permit_and_result_accounting_witness :
    (future_results_as_completed
        [({ cancelled := true, run := Except.ok 1 } : TaskHandle Unit Nat),
         { cancelled := false, run := Except.ok 2 }] (some 0)).1 = some 1 ∧
    (future_results_as_completed
        [({ cancelled := true, run := Except.ok 1 } : TaskHandle Unit Nat),
         { cancelled := false, run := Except.ok 2 }] (some 0)).2
      = [CompletionResult.failure TaskFault.cancelledError, CompletionResult.success 2] ∧
    handleResult ({ cancelled := true, run := Except.ok 1 } : TaskHandle Unit Nat)
      = CompletionResult.failure TaskFault.cancelledError := by
  have H := drain_permit_and_result_accounting
    [({ cancelled := true, run := Except.ok 1 } : TaskHandle Unit Nat),
     { cancelled := false, run := Except.ok 2 }] 0
  exact ⟨by rw [H.1]; rfl, by rw [H.2.1]; rfl, H.2.2 _ (List.mem_cons_self _ _) rfl⟩

/-! ### parametrized_hash_function (src/benji/utils.py lines 31-51,
src/backy2/utils.py lines 24-44)

Configuration strings are modelled as `List Char`.  The `hashlib` module is a
parameter: a partial map from attribute name to a hash-object constructor; a
constructor consumes the raw kwargs text (its `literal_eval`-based parsing is
Python-library behaviour outside this code).  Only the constructed object's
digest length matters to the checks in this function. -/

/-- A constructed hash object; `digestLength` is
`len(hash_function_w_kwargs.digest())`. -/
structure HashObj where
  digestLength : Nat
deriving Repr, DecidableEq

/-- What the resolver can raise: the `AttributeError` escaping from
`getattr`, or the deliberate configuration error (`ConfigurationError` in
benji, `NotImplementedError`/`RuntimeError` in backy2). -/
inductive ResolveError where
  | attributeError : ResolveError
  | configError : ResolveError
deriving Repr, DecidableEq

/-- `config_hash_function.split(',', 1)` as the source uses it: the text
before the first comma and, when a comma occurs, everything after it.  With
no comma the 2-tuple unpacking raises `ValueError`, which the source catches
to mean "name only, no kwargs" — the `none` case here. -/
def splitAtFirstComma : List Char → List Char × Option (List Char)
  | [] => ([], none)
  | c :: cs =>
    if c = ',' then ([], some cs)
    else
      let r := splitAtFirstComma cs
      (c :: r.1, r.2)

/-- `parametrized_hash_function`.  `getattr(hashlib, hash_name)` is called
with no default, so a missing attribute raises `AttributeError` — that is the
`none → attributeError` case.  The source's next line,
`if hash_function is None: raise ConfigurationError(...)`, can therefore
never fire (getattr never returns None for a missing attribute), so no
configuration error is produced for an unknown name; it has no reachable
counterpart here.  The digest-length check then raises the configuration
error, and otherwise the constructed hash object is returned. -/
def parametrized_hash_function
    (hashlib : List Char → Option (Option (List Char) → HashObj))
    (maximumChecksumLength : Nat) (config_hash_function : List Char) :
    Except ResolveError HashObj :=
  let split := splitAtFirstComma config_hash_function
  let hash_name := split.1
  let hash_args := split.2
  match hashlib hash_name with
  | none => Except.error ResolveError.attributeError
  | some hash_function =>
    let hash_function_w_kwargs := hash_function hash_args
    if maximumChecksumLength < hash_function_w_kwargs.digestLength then
      Except.error ResolveError.configError
    else
      Except.ok hash_function_w_kwargs

/-- A concrete stand-in for the `hashlib` module, defining `sha256` and
`sha512` with their digest lengths and nothing else. -/
def hashlibModel : List Char → Option (Option (List Char) → HashObj) :=
  fun name =>
    if name = "sha256".toList then some (fun _ => { digestLength := 32 })
    else if name = "sha512".toList then some (fun _ => { digestLength := 64 })
    else none

/-- Claim C8 (code bug): on an unknown algorithm name the resolver fails with
`AttributeError` from `getattr`, not with the configuration error its own
dead `is None` check shows it intends; the digest-length configuration error
and the success path behave as claimed (maximum length 64 here, benji's
`Block.MAXIMUM_CHECKSUM_LENGTH`). -/
theorem unknown_hash_name_raises_attribute_error :
    parametrized_hash_function hashlibModel 64 "unknownhash".toList
      = Except.error ResolveError.attributeError ∧
    parametrized_hash_function hashlibModel 64 "unknownhash".toList
      ≠ Except.error ResolveError.configError ∧
    parametrized_hash_function hashlibModel 64 "sha512".toList
      = Except.ok { digestLength := 64 } ∧
    parametrized_hash_function hashlibModel 32 "sha512".toList
      = Except.error ResolveError.configError := by
  refine ⟨rfl, ?_, rfl, rfl⟩
  intro hcon
  exact ResolveError.noConfusion (Except.error.inj hcon)

/-! ### data_hexdigest (src/benji/utils.py lines 54-57, src/backy2/utils.py
lines 46-49) -/

/-- The mutable state of one hash object: the byte string fed to it so far.
`copy()` returns a fresh object with the same state and no sharing; a later
`update` on the copy therefore acts on the copy alone.  `hexdigest()` is a
pure function of the state, abstracted as the parameter `digestOf`. -/
structure HashCtx where
  fed : List Nat
deriving Repr, DecidableEq

def HashCtx.copy (self : HashCtx) : HashCtx := self

def HashCtx.update (self : HashCtx) (data : List Nat) : HashCtx :=
  { fed := self.fed ++ data }

def HashCtx.hexdigest (digestOf : List Nat → List Char) (self : HashCtx) : List Char :=
  digestOf self.fed

/-- `data_hexdigest(hash_function, data)`: the local `hash` is a copy, and
both the `update` and the `hexdigest` are performed on it.  The returned pair
carries the hexdigest together with the state the caller's `hash_function`
object holds when the call returns (no statement in the body assigns to
it). -/
def data_hexdigest (digestOf : List Nat → List Char) (hash_function : HashCtx)
    (data : List Nat) : List Char × HashCtx :=
  let hash := hash_function.copy
  let hash := hash.update data
  (hash.hexdigest digestOf, hash_function)

/-- Claim C10: `data_hexdigest` leaves the passed hash object's state
unchanged (it updates only the copy), so a second call with the same object
and the same data returns the same hexdigest string. -/
theorem data_hexdigest_preserves_state (digestOf : List Nat → List Char)
    (hf : HashCtx) (data : List Nat) :
    (data_hexdigest digestOf hf data).2 = hf ∧
    (data_hexdigest digestOf (data_hexdigest digestOf hf data).2 data).1
      = (data_hexdigest digestOf hf data).1 :=
  ⟨rfl, rfl⟩
